import Mathlib

/-!
Verification of the hull-semrush connector core: flow control policy,
batch grouping, notification routing, request scoping, configuration
parsing and lifecycle management. Definitions are shallow embeddings of
the code in src/server.ts and src/index.ts; components whose
implementation lives outside the repository are modelled from the spec,
as marked in their doc comments.
-/

namespace HullSemrush

/-! ### JavaScript / lodash primitives used by server.ts -/

/-- JS property access by numeric index on an optional string value, as
performed by the lodash call in server.ts lines 95-99: the call
passes the environment value as the object and the default string as the
path, so lodash looks up a numeric property of a string.
Accessing index i of a string yields its i-th character when in bounds,
otherwise undefined; any property access on undefined yields undefined.
Option.none models the JS value undefined. -/
def lodashGet (obj : Option String) (idx : Nat) : Option String :=
  match obj with
  | none => none
  | some s => (s.data.get? idx).map (fun c => String.mk [c])

/-- JS ToString coercion applied by parseInt to its argument:
undefined becomes the string "undefined". -/
def jsToString (v : Option String) : String :=
  match v with
  | none => "undefined"
  | some s => s

/-- Value of a list of decimal digit characters. -/
def digitsVal (cs : List Char) : Nat :=
  cs.foldl (fun a c => a * 10 + (c.toNat - 48)) 0

/-- JS parseInt with radix 10: skip leading whitespace, optional sign,
read the maximal prefix of decimal digits; NaN (modelled as none) when
no digit is read. -/
def jsParseInt (s : String) : Option Int :=
  let cs := s.data.dropWhile (fun c => c = ' ' || c = '\t' || c = '\n' || c = '\r')
  let core : List Char → Option Int := fun l =>
    let ds := l.takeWhile Char.isDigit
    if ds.isEmpty then none else some (digitsVal ds)
  match cs with
  | '-' :: rest => (core rest).map (fun n => -n)
  | '+' :: rest => core rest
  | l => core l

/-- JS logical-or defaulting as in `process.env.SECRET || "secret"`:
undefined and the empty string are falsy. -/
def jsOrStr (v : Option String) (d : String) : String :=
  match v with
  | none => d
  | some s => if s = "" then d else s

/-! ### Flow-control options computed in server.ts lines 93-101 -/

/-- The flow-control options object passed to the single-event handler,
with fields size, in and in_time; none models the JS value NaN. -/
structure FlowControlOpts where
  size : Option Int
  inCount : Option Int
  inTime : Option Int
deriving DecidableEq

/-- The flow-control option computation of server.ts lines 95-100:
`parseInt(_.get(envValue, defaultString), 10)` for each of the three
environment variables, exactly as written in the source (the default
string is in the lodash path position). -/
def flowControlOptsOf (size inCount inTime : Option String) : FlowControlOpts :=
  ⟨jsParseInt (jsToString (lodashGet size 30)),
   jsParseInt (jsToString (lodashGet inCount 5)),
   jsParseInt (jsToString (lodashGet inTime 60000))⟩

/-! ### Secrets (server.ts line 79 and index.ts line 14) -/

/-- The appSecret registered in the DI container, server.ts line 79:
`process.env.SECRET || "secret"`. -/
def appSecret (secretEnv : Option String) : String :=
  jsOrStr secretEnv "secret"

/-- The hostSecret of the connector configuration, index.ts line 14:
`process.env.SECRET || "SECRET"`. -/
def hostSecret (secretEnv : Option String) : String :=
  jsOrStr secretEnv "SECRET"

/-! ### Flow Control Policy -/

/-- Flow-control rate configuration (spec section 3): windowCount
accepted windows per windowDurationMs. -/
structure FlowCfg where
  windowCount : Nat
  windowDurationMs : Nat
deriving DecidableEq

/-- Admission verdict (spec section 3): retryAfterMs is none when the
request proceeds. -/
structure Verdict where
  proceed : Bool
  retryAfterMs : Option Nat
deriving DecidableEq

/-- Modelled from the spec: the sliding-window pruning step of the Flow
Control Policy, which is implemented by the platform library and not
under src/. Keeps only samples whose age at time now is at most the
window duration. -/
def pruneSamples (d now : Nat) (st : List Nat) : List Nat :=
  st.filter (fun t => now - t ≤ d)

/-- Timestamp of the oldest counted sample, defaulting to now when the
sample list is empty. -/
def oldestSample (now : Nat) (st : List Nat) : Nat :=
  st.foldr Nat.min now

/-- Modelled from the spec: the Flow Control Policy evaluation of spec
section 4.1, which is implemented by the platform library and not under
src/. Counts accepted samples in the trailing window; below the cap it
proceeds and records a sample with the current timestamp, otherwise it
rejects with retryAfterMs equal to the time until the oldest counted
sample expires, floored at 1 ms. Returns the verdict and the new state. -/
def evaluate (cfg : FlowCfg) (now : Nat) (st : List Nat) : Verdict × List Nat :=
  let p := pruneSamples cfg.windowDurationMs now st
  if p.length < cfg.windowCount then
    (⟨true, none⟩, now :: p)
  else
    (⟨false, some (Nat.max 1 (oldestSample now p + cfg.windowDurationMs - now))⟩, p)

/-- Run the Flow Control Policy over a sequence of single-event arrival
times, threading the sample state; yields the verdicts in order and the
final state. -/
def runSingles (cfg : FlowCfg) (ts : List Nat) (st : List Nat) :
    List Verdict × List Nat :=
  match ts with
  | [] => ([], st)
  | t :: rest =>
    let out := evaluate cfg t st
    let tail := runSingles cfg rest out.2
    (out.1 :: tail.1, tail.2)

/-- Number of admitted verdicts in a run. -/
def admittedCount (vs : List Verdict) : Nat :=
  vs.countP (fun v => v.proceed)

/-! ### Notification Router -/

/-- Configuration of one route registration in server.ts: the topic of
its single handler entry, the isBatch and groupTraits flags passed to
the handler factory, and whether a flowControl object is supplied. -/
structure RouteConfig where
  topic : String
  isBatch : Bool
  groupTraits : Bool
  hasFlowControl : Bool
deriving DecidableEq

/-- The /smart-notifier registration, server.ts lines 89-106: handler
entry for topic account:update with a flowControl object; no
userHandlerOptions, so groupTraits keeps the library default true and
isBatch is absent hence false. -/
def smartNotifierRoute : RouteConfig :=
  ⟨"account:update", false, true, true⟩

/-- The /batch registration, server.ts lines 108-117: handler entry for
topic account:update with isBatch true, groupTraits false and no
flowControl object. -/
def batchRoute : RouteConfig :=
  ⟨"account:update", true, false, false⟩

/-- The /batch-accounts registration, server.ts lines 119-128: handler
entry for topic account:update with isBatch true, groupTraits false and
no flowControl object. -/
def batchAccountsRoute : RouteConfig :=
  ⟨"account:update", true, false, false⟩

/-- Outcome of dispatching one delivery request. -/
inductive Outcome where
  | accepted
  | rateLimited (retryAfterMs : Option Nat)
  | acknowledged
deriving DecidableEq

/-- Result of one dispatch: the outcome, whether the registered handler
was invoked, and the flow-control sample state afterwards. -/
structure DispatchResult where
  outcome : Outcome
  handlerInvoked : Bool
  flowState : List Nat
deriving DecidableEq

/-- Modelled from the spec: the Notification Router dispatch of spec
section 4.3, implemented by the platform notification handler and not
under src/. An unregistered topic (one different from the route's
single handler entry) invokes no handler, answers with a
success-acknowledgement and leaves flow control untouched. A route with
flow control consults the policy and invokes the handler only when
admitted; a route without flow control (the batch paths) invokes the
handler without consulting or mutating the flow-control state. -/
def dispatch (cfg : FlowCfg) (route : RouteConfig) (topic : String)
    (now : Nat) (st : List Nat) : DispatchResult :=
  if topic = route.topic then
    if route.hasFlowControl then
      let out := evaluate cfg now st
      if out.1.proceed then
        ⟨.accepted, true, out.2⟩
      else
        ⟨.rateLimited out.1.retryAfterMs, false, out.2⟩
    else
      ⟨.accepted, true, st⟩
  else
    ⟨.acknowledged, false, st⟩

/-- One inbound request for a mixed run: a single-event request with its
arrival time, or a batch request. -/
inductive Req where
  | single (t : Nat)
  | batch
deriving DecidableEq

/-- One step of a mixed run: a batch request passes no flowControl
object, so no verdict is computed and the sample state is returned
untouched; a single-event request consults the Flow Control Policy. -/
def routeStep (cfg : FlowCfg) (r : Req) (st : List Nat) :
    Option Verdict × List Nat :=
  match r with
  | .batch => (none, st)
  | .single t =>
    let out := evaluate cfg t st
    (some out.1, out.2)

/-- Run a mixed sequence of batch and single-event requests, threading
the flow-control sample state. -/
def runMixed (cfg : FlowCfg) (rs : List Req) (st : List Nat) :
    List (Option Verdict) × List Nat :=
  match rs with
  | [] => ([], st)
  | r :: rest =>
    let out := routeStep cfg r st
    let tail := runMixed cfg rest out.2
    (out.1 :: tail.1, tail.2)

/-- Number of admitted single-event requests in a mixed run. -/
def admittedMixed (vs : List (Option Verdict)) : Nat :=
  vs.countP (fun ov => match ov with
    | some v => v.proceed
    | none => false)

/-! ### Batch Grouping Processor -/

/-- An update record: an entity identifier and an ordered list of
attribute writes (key, value). -/
structure Rec where
  rid : String
  attrs : List (String × String)
deriving DecidableEq

/-- Modelled from the spec: one merge step of the Batch Grouping
Processor of spec section 4.2, implemented by the platform notification
handler and not under src/. The incoming record absorbs the attribute
writes of any earlier record with the same identifier and takes the
last position; records with other identifiers keep their relative
order. -/
def mergeStep (acc : List Rec) (r : Rec) : List Rec :=
  acc.filter (fun q => !(q.rid = r.rid)) ++
    [⟨r.rid,
      ((acc.filter (fun q => q.rid = r.rid)).foldl
        (fun as q => as ++ q.attrs) []) ++ r.attrs⟩]

/-- Modelled from the spec: the Batch Grouping Processor of spec
section 4.2, implemented by the platform notification handler and not
under src/. With groupTraits false the records pass through unmodified
and in order; with groupTraits true records sharing an identifier are
merged left to right. -/
def groupRecords (records : List Rec) (groupTraits : Bool) : List Rec :=
  if groupTraits then records.foldl mergeStep [] else records

/-- Reading an attribute log: the value of the last write for a key,
none when the key was never written. -/
def attrsGet (as : List (String × String)) (k : String) : Option String :=
  as.foldl (fun acc p => if p.1 = k then some p.2 else acc) none

/-- The concatenated attribute log of all records with a given
identifier, in arrival order. -/
def attrsOf (rs : List Rec) (i : String) : List (String × String) :=
  match rs with
  | [] => []
  | r :: rest => (if r.rid = i then r.attrs else []) ++ attrsOf rest i

/-- Keep the last occurrence of every element, at the position of that
last occurrence. -/
def dedupLast (xs : List String) : List String :=
  xs.foldl (fun acc x => acc.filter (fun y => !(y = x)) ++ [x]) []

/-! ### Lifecycle Manager -/

/-- Modelled from the spec: process lifecycle states of spec section 3;
the container disposal semantics live in the DI library, not under
src/. -/
inductive LifeState where
  | Running
  | ShuttingDown
  | Disposed
deriving DecidableEq

/-- Modelled from the spec: the shutdown entry point of the Lifecycle
Manager, spec section 4.5; the state is paired with the number of
resource-release side effects triggered so far. A call while Running
starts the release; any call while not Running is a no-op. -/
def shutdown : LifeState × Nat → LifeState × Nat
  | (.Running, n) => (.ShuttingDown, n + 1)
  | (s, n) => (s, n)

/-- Modelled from the spec: completion of the resource release,
transitioning ShuttingDown to Disposed. -/
def releaseComplete : LifeState × Nat → LifeState × Nat
  | (.ShuttingDown, n) => (.Disposed, n)
  | (s, n) => (s, n)

/-- Shutdown trigger sources of server.ts lines 137-148: the
application close event and the interrupt signal. -/
inductive Trigger where
  | close
  | sigint
deriving DecidableEq

/-- Firing a trigger, server.ts lines 137-148: both the close handler
and the SIGINT handler dispose the container, i.e. call shutdown (the
SIGINT handler first checks that the container exists, which it always
does once the server is constructed). -/
def fire : Trigger → LifeState × Nat → LifeState × Nat
  | .close => shutdown
  | .sigint => shutdown

/-! ### Scoped Resource Provider and shared-client registry -/

/-- Modelled from the spec: the process-wide singleton registry of spec
section 4.4; the DI container semantics (asClass(...).singleton() of
server.ts line 76) live in the DI library, not under src/. The cache
holds the shared client instance once constructed; instances are
identified by the value of the construction counter at creation time. -/
structure Registry where
  cache : Option Nat
  constructions : Nat
deriving DecidableEq

/-- The registry as first built by server.ts line 75-80: the shared
client is registered lazily, nothing constructed yet. -/
def initRegistry : Registry :=
  ⟨none, 0⟩

/-- Modelled from the spec: opening a request scope registers only
request-local values (settings, correlation key) as in the scenario
container setup; it does not touch the singleton cache or construct a
connection. -/
def openScope (reg : Registry) : Registry :=
  reg

/-- Modelled from the spec: resolving the shared client from a request
scope falls through to the process-wide singleton registry; the cached
instance is returned when present, otherwise one instance is
constructed and cached. -/
def resolveShared (reg : Registry) : Nat × Registry :=
  match reg.cache with
  | some i => (i, reg)
  | none => (reg.constructions, ⟨some reg.constructions, reg.constructions + 1⟩)

/-- One request: open a scope, then resolve the shared client in it. -/
def handleRequest (reg : Registry) : Nat × Registry :=
  resolveShared (openScope reg)

/-- Serve n requests, collecting the shared-client instance each
request resolved. -/
def runRequests : Nat → Registry → List Nat × Registry
  | 0, reg => ([], reg)
  | n + 1, reg =>
    let out := handleRequest reg
    let tail := runRequests n out.2
    (out.1 :: tail.1, tail.2)

/-! ### Theorems -/

/-- Claim C2: the claim states that with FLOW_CONTROL_SIZE,
FLOW_CONTROL_IN and FLOW_CONTROL_IN_TIME unset the flow-control
configuration equals size 30, windowCount 5, windowDurationMs 60000.
The code passes the default strings in the lodash path position, so
each field evaluates to parseInt(undefined, 10) = NaN: the configured
defaults are never produced. -/
theorem C2_flow_control_defaults_are_NaN :
    flowControlOptsOf none none none = ⟨none, none, none⟩ ∧
    flowControlOptsOf none none none ≠ ⟨some 30, some 5, some 60000⟩ := by
  exact ⟨rfl, by decide⟩

/-- Claim C10: with SECRET unset, the DI container appSecret defaults
to the lowercase string secret while the connector hostSecret defaults
to the uppercase string SECRET, and the two defaults are unequal. -/
theorem C10_secret_defaults_diverge :
    appSecret none = "secret" ∧ hostSecret none = "SECRET" ∧
    appSecret none ≠ hostSecret none := by
  exact ⟨rfl, rfl, by decide⟩

/-- Claim C9: the /batch and /batch-accounts registrations are
identical — same topic account:update, isBatch true, groupTraits
false — and dispatch through either produces the same outcome on every
payload and flow-control state. -/
theorem C9_batch_routes_equivalent :
    batchRoute = batchAccountsRoute ∧
    batchRoute.topic = "account:update" ∧
    batchRoute.isBatch = true ∧
    batchRoute.groupTraits = false ∧
    ∀ (cfg : FlowCfg) (topic : String) (now : Nat) (st : List Nat),
      dispatch cfg batchRoute topic now st =
        dispatch cfg batchAccountsRoute topic now st :=
  ⟨rfl, rfl, rfl, rfl, fun _ _ _ _ => rfl⟩

/-- Claim C3: with groupTraits false (the /batch and /batch-accounts
paths) the record sequence delivered to the handler is exactly the
input sequence: same list, same count, each position unmodified. -/
theorem C3_group_false_passthrough (records : List Rec) :
    groupRecords records false = records ∧
    (groupRecords records false).length = records.length ∧
    ∀ i : Nat, (groupRecords records false)[i]? = records[i]? :=
  ⟨rfl, rfl, fun _ => rfl⟩

/-- Claim C5: firing any two shutdown triggers (close or SIGINT, in any
combination, with release completion after or between them) ends in
Disposed with exactly one resource-release side effect, and shutdown in
any state other than Running is a no-op. -/
theorem C5_shutdown_idempotent :
    (∀ t1 t2 : Trigger,
      releaseComplete (fire t2 (fire t1 (.Running, 0))) = (.Disposed, 1) ∧
      fire t2 (releaseComplete (fire t1 (.Running, 0))) = (.Disposed, 1)) ∧
    (∀ (s : LifeState) (n : Nat), s ≠ .Running → shutdown (s, n) = (s, n)) := by
  constructor
  · intro t1 t2
    cases t1 <;> cases t2 <;> exact ⟨rfl, rfl⟩
  · intro s n h
    cases s with
    | Running => exact absurd rfl h
    | ShuttingDown => rfl
    | Disposed => rfl

/-- Concrete instance of C5: shutdown in the Disposed state is a no-op. -/
theorem C5_shutdown_idempotent_witness :
    LifeState.Disposed ≠ LifeState.Running ∧
    shutdown (LifeState.Disposed, 1) = (LifeState.Disposed, 1) :=
  ⟨by decide, C5_shutdown_idempotent.2 LifeState.Disposed 1 (by decide)⟩

/-- Claim C7: dispatching a topic other than account:update on any of
the three registered routes invokes no handler, answers with the
success-acknowledgement outcome and leaves the flow-control sample
state untouched. -/
theorem C7_unregistered_topic_ignored (cfg : FlowCfg) (route : RouteConfig)
    (topic : String) (now : Nat) (st : List Nat)
    (hroute : route ∈ [smartNotifierRoute, batchRoute, batchAccountsRoute])
    (htopic : topic ≠ "account:update") :
    dispatch cfg route topic now st = ⟨.acknowledged, false, st⟩ := by
  have hT : route.topic = "account:update" := by
    simp only [List.mem_cons, List.not_mem_nil, or_false] at hroute
    rcases hroute with h | h | h <;> rw [h] <;> rfl
  unfold dispatch
  rw [hT, if_neg htopic]

/-- Concrete instance of C7: topic user:update on the smart-notifier
route is acknowledged without handler invocation or state change. -/
theorem C7_unregistered_topic_ignored_witness :
    smartNotifierRoute ∈ [smartNotifierRoute, batchRoute, batchAccountsRoute] ∧
    "user:update" ≠ "account:update" ∧
    dispatch ⟨5, 60000⟩ smartNotifierRoute "user:update" 7 [3] =
      ⟨.acknowledged, false, [3]⟩ :=
  ⟨by decide, by decide,
    C7_unregistered_topic_ignored ⟨5, 60000⟩ smartNotifierRoute
      "user:update" 7 [3] (by decide) (by decide)⟩

/-- Once the shared client is cached, every further request resolves
the cached instance and the registry never changes again. -/
lemma runRequests_cached (n i c : Nat) :
    runRequests n ⟨some i, c⟩ = (List.replicate n i, ⟨some i, c⟩) := by
  induction n with
  | zero => rfl
  | succ n ih =>
    simp [runRequests, handleRequest, openScope, resolveShared, ih,
      List.replicate]

/-- Claim C8: opening a request scope never touches the shared-client
registry, and across any number of requests every request scope
resolves the same shared-client instance, with at most one connection
ever constructed. -/
theorem C8_shared_client_is_singleton :
    (∀ reg : Registry, openScope reg = reg) ∧
    ∀ n : Nat,
      (runRequests n initRegistry).1 = List.replicate n 0 ∧
      (runRequests n initRegistry).2.constructions ≤ 1 := by
  refine ⟨fun _ => rfl, fun n => ?_⟩
  cases n with
  | zero => exact ⟨rfl, Nat.zero_le 1⟩
  | succ n =>
    have h := runRequests_cached n 0 1
    constructor
    · simp [runRequests, handleRequest, openScope, resolveShared,
        initRegistry, h, List.replicate]
    · simp [runRequests, handleRequest, openScope, resolveShared,
        initRegistry, h]

/-- A sample state whose entries all lie inside the trailing window is
left unchanged by pruning. -/
lemma pruneSamples_eq_self (d now : Nat) (st : List Nat)
    (h : ∀ x ∈ st, now ≤ x + d) :
    pruneSamples d now st = st := by
  rw [pruneSamples, List.filter_eq_self]
  intro a ha
  have := h a ha
  simp only [decide_eq_true_eq]
  omega

/-- Within one window no sample expires, so the number of admissions is
bounded by the remaining slots of the window count. -/
lemma admitted_le_slots (cfg : FlowCfg) (a : Nat) :
    ∀ (ts st : List Nat),
      (∀ t ∈ ts, a ≤ t ∧ t ≤ a + cfg.windowDurationMs) →
      (∀ x ∈ st, a ≤ x ∧ x ≤ a + cfg.windowDurationMs) →
      admittedCount (runSingles cfg ts st).1 ≤
        cfg.windowCount - st.length := by
  intro ts
  induction ts with
  | nil =>
    intro st _ _
    simp [runSingles, admittedCount]
  | cons t rest ih =>
    intro st hts hst
    have ht := hts t (List.mem_cons_self t rest)
    have hpr : pruneSamples cfg.windowDurationMs t st = st := by
      refine pruneSamples_eq_self _ _ _ (fun x hx => ?_)
      have := hst x hx
      omega
    have hrest : ∀ u ∈ rest, a ≤ u ∧ u ≤ a + cfg.windowDurationMs :=
      fun u hu => hts u (List.mem_cons_of_mem t hu)
    by_cases hlt : st.length < cfg.windowCount
    · have hst' : ∀ x ∈ t :: st, a ≤ x ∧ x ≤ a + cfg.windowDurationMs := by
        intro x hx
        rcases List.mem_cons.mp hx with h | h
        · rw [h]; exact ht
        · exact hst x h
      have hrec := ih (t :: st) hrest hst'
      simp only [List.length_cons] at hrec
      simp [runSingles, evaluate, hpr, hlt, admittedCount, List.countP_cons]
      simp only [admittedCount] at hrec
      omega
    · have hrec := ih st hrest hst
      simp [runSingles, evaluate, hpr, hlt, admittedCount, List.countP_cons]
      simp only [admittedCount] at hrec
      omega

/-- Every rejection verdict produced by a run carries a positive
retryAfterMs. -/
lemma rejected_retry_pos (cfg : FlowCfg) :
    ∀ (ts st : List Nat), ∀ v ∈ (runSingles cfg ts st).1,
      v.proceed = false → ∃ r, v.retryAfterMs = some r ∧ 0 < r := by
  intro ts
  induction ts with
  | nil =>
    intro st v hv
    simp [runSingles] at hv
  | cons t rest ih =>
    intro st v hv hfalse
    simp only [runSingles, List.mem_cons] at hv
    rcases hv with hv | hv
    · by_cases hc :
        (pruneSamples cfg.windowDurationMs t st).length < cfg.windowCount
      · rw [hv] at hfalse
        simp [evaluate, hc] at hfalse
      · rw [hv]
        simp only [evaluate, hc, if_false]
        exact ⟨_, rfl, Nat.lt_of_lt_of_le Nat.one_pos (Nat.le_max_left _ _)⟩
    · exact ih _ v hv hfalse

/-- Claim C1: for any sequence of single-event requests whose arrival
times all lie within one windowDurationMs window, at most windowCount
of them are admitted, and every rejection verdict carries
retryAfterMs greater than zero. -/
theorem C1_window_admission_cap (cfg : FlowCfg) (a : Nat) (ts : List Nat)
    (hts : ∀ t ∈ ts, a ≤ t ∧ t ≤ a + cfg.windowDurationMs) :
    admittedCount (runSingles cfg ts []).1 ≤ cfg.windowCount ∧
    ∀ v ∈ (runSingles cfg ts []).1, v.proceed = false →
      ∃ r, v.retryAfterMs = some r ∧ 0 < r := by
  constructor
  · have h := admitted_le_slots cfg a ts [] hts (by intro x hx; cases hx)
    simpa using h
  · exact rejected_retry_pos cfg ts []

/-- Concrete instance of C1: seven requests inside one 60-second
window against a windowCount of five. -/
theorem C1_window_admission_cap_witness :
    (∀ t ∈ [0, 10, 20, 30, 40, 50, 100], 0 ≤ t ∧ t ≤ 0 + 60000) ∧
    (admittedCount (runSingles ⟨5, 60000⟩ [0, 10, 20, 30, 40, 50, 100] []).1 ≤ 5 ∧
     ∀ v ∈ (runSingles ⟨5, 60000⟩ [0, 10, 20, 30, 40, 50, 100] []).1,
       v.proceed = false → ∃ r, v.retryAfterMs = some r ∧ 0 < r) :=
  ⟨by decide,
   C1_window_admission_cap ⟨5, 60000⟩ 0 [0, 10, 20, 30, 40, 50, 100]
     (by decide)⟩

/-- A request lies within the window starting at a: batch requests
carry no time, single-event requests must arrive inside the window. -/
def reqWithin (a d : Nat) : Req → Bool
  | .single t => decide (a ≤ t) && decide (t ≤ a + d)
  | .batch => true

/-- In a mixed run inside one window, the sample state grows by exactly
the number of admitted single-event requests. -/
lemma mixed_sample_count (cfg : FlowCfg) (a : Nat) :
    ∀ (rs : List Req) (st : List Nat),
      (∀ r ∈ rs, reqWithin a cfg.windowDurationMs r = true) →
      (∀ x ∈ st, a ≤ x ∧ x ≤ a + cfg.windowDurationMs) →
      (runMixed cfg rs st).2.length =
        st.length + admittedMixed (runMixed cfg rs st).1 := by
  intro rs
  induction rs with
  | nil =>
    intro st _ _
    simp [runMixed, admittedMixed]
  | cons r rest ih =>
    intro st hrs hst
    have hrest : ∀ q ∈ rest, reqWithin a cfg.windowDurationMs q = true :=
      fun q hq => hrs q (List.mem_cons_of_mem r hq)
    cases r with
    | batch =>
      have hrec := ih st hrest hst
      simp [runMixed, routeStep, admittedMixed, List.countP_cons] at *
      omega
    | single t =>
      have ht : a ≤ t ∧ t ≤ a + cfg.windowDurationMs := by
        have := hrs (.single t) (List.mem_cons_self _ rest)
        simpa [reqWithin] using this
      have hpr : pruneSamples cfg.windowDurationMs t st = st := by
        refine pruneSamples_eq_self _ _ _ (fun x hx => ?_)
        have := hst x hx
        omega
      by_cases hlt : st.length < cfg.windowCount
      · have hst' : ∀ x ∈ t :: st, a ≤ x ∧ x ≤ a + cfg.windowDurationMs := by
          intro x hx
          rcases List.mem_cons.mp hx with h | h
          · rw [h]; exact ht
          · exact hst x h
        have hrec := ih (t :: st) hrest hst'
        simp only [List.length_cons] at hrec
        simp [runMixed, routeStep, evaluate, hpr, hlt, admittedMixed,
          List.countP_cons] at *
        omega
      · have hrec := ih st hrest hst
        simp [runMixed, routeStep, evaluate, hpr, hlt, admittedMixed,
          List.countP_cons] at *
        omega

/-- Claim C6: a batch request never consults or mutates the
flow-control state (no verdict is computed and the sample state is
returned unchanged), and over any mixed run inside one window exactly
one admission-window sample is recorded per admitted single-event
request. -/
theorem C6_batch_requests_skip_flow_control (cfg : FlowCfg) (a : Nat)
    (rs : List Req) (st : List Nat)
    (hrs : ∀ r ∈ rs, reqWithin a cfg.windowDurationMs r = true)
    (hst : ∀ x ∈ st, a ≤ x ∧ x ≤ a + cfg.windowDurationMs) :
    (∀ s : List Nat, routeStep cfg .batch s = (none, s)) ∧
    (runMixed cfg rs st).2.length =
      st.length + admittedMixed (runMixed cfg rs st).1 :=
  ⟨fun _ => rfl, mixed_sample_count cfg a rs st hrs hst⟩

/-- Concrete instance of C6: two batch requests interleaved with two
admitted single-event requests add exactly two samples. -/
theorem C6_batch_requests_skip_flow_control_witness :
    (∀ r ∈ [Req.batch, Req.single 10, Req.single 20, Req.batch],
      reqWithin 0 60000 r = true) ∧
    (∀ x ∈ ([] : List Nat), 0 ≤ x ∧ x ≤ 0 + 60000) ∧
    ((∀ s : List Nat,
        routeStep ⟨5, 60000⟩ .batch s = (none, s)) ∧
     (runMixed ⟨5, 60000⟩ [Req.batch, Req.single 10, Req.single 20, Req.batch]
        []).2.length =
       ([] : List Nat).length +
         admittedMixed
           (runMixed ⟨5, 60000⟩
             [Req.batch, Req.single 10, Req.single 20, Req.batch] []).1) :=
  ⟨by decide, by decide,
   C6_batch_requests_skip_flow_control ⟨5, 60000⟩ 0
     [Req.batch, Req.single 10, Req.single 20, Req.batch] []
     (by decide) (by decide)⟩

/-- The attribute log of an identifier distributes over list append. -/
lemma attrsOf_append (l1 l2 : List Rec) (i : String) :
    attrsOf (l1 ++ l2) i = attrsOf l1 i ++ attrsOf l2 i := by
  induction l1 with
  | nil => simp [attrsOf]
  | cons r l ih => simp [attrsOf, ih, List.append_assoc]

/-- Removing the records of another identifier leaves the attribute log
of i unchanged. -/
lemma attrsOf_filter_ne (acc : List Rec) (j i : String) (h : i ≠ j) :
    attrsOf (acc.filter (fun q => !(q.rid = j))) i = attrsOf acc i := by
  induction acc with
  | nil => rfl
  | cons q l ih =>
    by_cases hq : q.rid = j
    · simp [List.filter_cons, hq, attrsOf, ih]
      exact fun e => absurd e.symm h
    · simp [List.filter_cons, hq, attrsOf, ih]

/-- Removing the records of i empties the attribute log of i. -/
lemma attrsOf_filter_self (acc : List Rec) (i : String) :
    attrsOf (acc.filter (fun q => !(q.rid = i))) i = [] := by
  induction acc with
  | nil => rfl
  | cons q l ih =>
    by_cases hq : q.rid = i
    · simp [List.filter_cons, hq, ih]
    · simp [List.filter_cons, hq, attrsOf, ih]

/-- Collecting the attribute writes of the records matching j equals
appending the attribute log of j. -/
lemma foldl_filter_attrs (j : String) :
    ∀ (acc : List Rec) (init : List (String × String)),
      (acc.filter (fun q => q.rid = j)).foldl
        (fun as q => as ++ q.attrs) init = init ++ attrsOf acc j := by
  intro acc
  induction acc with
  | nil => intro init; simp [attrsOf]
  | cons q l ih =>
    intro init
    by_cases hq : q.rid = j
    · simp [List.filter_cons, hq, attrsOf, ih, List.append_assoc]
    · simp [List.filter_cons, hq, attrsOf, ih]

/-- One merge step appends the attribute writes of the incoming record
to the log of its identifier and leaves every other log unchanged. -/
lemma attrsOf_mergeStep (acc : List Rec) (r : Rec) (i : String) :
    attrsOf (mergeStep acc r) i =
      attrsOf acc i ++ (if r.rid = i then r.attrs else []) := by
  unfold mergeStep
  rw [attrsOf_append]
  by_cases h : r.rid = i
  · rw [← h]
    simp [attrsOf, attrsOf_filter_self, foldl_filter_attrs, h]
  · have h' : i ≠ r.rid := fun e => h e.symm
    simp [attrsOf, attrsOf_filter_ne acc r.rid i h', h]

/-- Folding the merge step preserves every attribute log: the merged
accumulator carries exactly the concatenated arrival-ordered writes. -/
lemma attrsOf_foldl_merge :
    ∀ (rs acc : List Rec) (i : String),
      attrsOf (rs.foldl mergeStep acc) i = attrsOf acc i ++ attrsOf rs i := by
  intro rs
  induction rs with
  | nil => intro acc i; simp [attrsOf]
  | cons r rest ih =>
    intro acc i
    simp only [List.foldl_cons]
    rw [ih, attrsOf_mergeStep]
    simp [attrsOf, List.append_assoc]

/-- Mapping identifiers commutes with filtering by identifier. -/
lemma map_rid_filter (acc : List Rec) (j : String) :
    (acc.filter (fun q => !(q.rid = j))).map Rec.rid =
      (acc.map Rec.rid).filter (fun y => !(y = j)) := by
  induction acc with
  | nil => rfl
  | cons q l ih =>
    by_cases hq : q.rid = j
    · simp [List.filter_cons, hq, ih]
    · simp [List.filter_cons, hq, ih]

/-- One merge step acts on the identifier sequence as the
keep-last-occurrence step. -/
lemma map_rid_mergeStep (acc : List Rec) (r : Rec) :
    (mergeStep acc r).map Rec.rid =
      (acc.map Rec.rid).filter (fun y => !(y = r.rid)) ++ [r.rid] := by
  unfold mergeStep
  simp [map_rid_filter]

/-- The merged identifier sequence is the keep-last-occurrence fold of
the input identifier sequence. -/
lemma map_rid_foldl_merge :
    ∀ (rs acc : List Rec),
      (rs.foldl mergeStep acc).map Rec.rid =
        (rs.map Rec.rid).foldl
          (fun a x => a.filter (fun y => !(y = x)) ++ [x])
          (acc.map Rec.rid) := by
  intro rs
  induction rs with
  | nil => intro acc; rfl
  | cons r rest ih =>
    intro acc
    simp only [List.foldl_cons, List.map_cons]
    rw [ih, map_rid_mergeStep]

/-- The keep-last-occurrence fold preserves absence of duplicates. -/
lemma dedupLast_foldl_nodup :
    ∀ (xs acc : List String), acc.Nodup →
      (xs.foldl (fun a x => a.filter (fun y => !(y = x)) ++ [x]) acc).Nodup := by
  intro xs
  induction xs with
  | nil => intro acc h; exact h
  | cons x rest ih =>
    intro acc h
    simp only [List.foldl_cons]
    refine ih _ ?_
    have hf : (acc.filter (fun y => !(y = x))).Nodup := h.filter _
    have hx : x ∉ acc.filter (fun y => !(y = x)) := by
      intro hmem
      have := (List.mem_filter.mp hmem).2
      simp at this
    simp [List.nodup_append, hf, hx]

/-- Claim C4: with groupTraits true, the grouped output has one record
per entity identifier placed at the position of its last contributing
input record (so distinct entities keep their relative order of last
occurrence), and attribute reads see last-write-wins: the merged
attribute log of every identifier equals its concatenated
arrival-ordered write log. -/
theorem C4_group_merge_last_write_wins (rs : List Rec) :
    ((groupRecords rs true).map Rec.rid = dedupLast (rs.map Rec.rid)) ∧
    (∀ i : String, attrsOf (groupRecords rs true) i = attrsOf rs i) ∧
    (∀ i k : String,
      attrsGet (attrsOf (groupRecords rs true) i) k =
        attrsGet (attrsOf rs i) k) ∧
    ((groupRecords rs true).map Rec.rid).Nodup := by
  have h1 : (groupRecords rs true).map Rec.rid = dedupLast (rs.map Rec.rid) := by
    simpa [groupRecords, dedupLast] using map_rid_foldl_merge rs []
  have h2 : ∀ i, attrsOf (groupRecords rs true) i = attrsOf rs i := by
    intro i
    simpa [groupRecords, attrsOf] using attrsOf_foldl_merge rs [] i
  refine ⟨h1, h2, fun i k => by rw [h2 i], ?_⟩
  rw [h1]
  exact dedupLast_foldl_nodup _ [] List.nodup_nil

end HullSemrush
